import Mathlib

/-!
# Verification of go-mtree keyword, vis, update and CLI behaviour

This file is a shallow embedding, in Lean 4, of the parts of the go-mtree
sources that the specification's claims are about:

* `keywords.go` — `KeyVal` accessors (`Keyword`, `KeywordSuffix`, `Value`),
  `KeyVals.Has`, `keywordSelector`, `inSlice` and `MergeSet`;
* the vis codec wrapper (`Vis`, the `VisFlag` constants and the unvis
  return codes with `UnvisError.Error`);
* `update.go` — `Update`, embedded with an explicit process state for the
  working directory and with the entry-path resolver and the update-keyword
  registry as parameters (those live outside the embedded sources);
* the `gomtree` command-line front end's exit-code logic.

Go strings are modelled as Lean `String`s (lists of characters); Go byte and
integer arithmetic is carried out on `Nat`/`Int` with explicit `% 2^32`
where Go truncates.
-/

/-! ## Models of the Go standard-library string helpers used by keywords.go -/

/-- Model of `strings.Contains(s, string(c))` for a one-character needle,
which is how `keywords.go` always calls it (needles `"="` and `"."`). -/
def goContains (s : String) (c : Char) : Bool :=
  s.data.contains c

/-- Model of Go `unicode.IsSpace` on the Latin-1 range (the only characters
`strings.TrimSpace` can strip from manifest keyvals that the claims touch). -/
def goIsSpace (c : Char) : Bool :=
  c == ' ' || c == '\t' || c == '\n' || c == '\x0b' || c == '\x0c' || c == '\r' ||
    c == '\u0085' || c == '\u00A0'

/-- Model of `strings.TrimSpace`: drop leading and trailing space characters. -/
def goTrimSpace (s : String) : String :=
  ⟨((s.data.dropWhile goIsSpace).reverse.dropWhile goIsSpace).reverse⟩

/-- The characters before the first occurrence of `c`: this is
`strings.SplitN(s, string(c), 2)[0]` whenever `s` contains `c`
(and all of `s` otherwise, as for `SplitN`). -/
def takeUntil (c : Char) : List Char → List Char
  | [] => []
  | x :: xs => if x = c then [] else x :: takeUntil c xs

/-- The characters after the first occurrence of `c`: this is
`strings.SplitN(s, string(c), 2)[1]` whenever `s` contains `c`. -/
def dropUntil (c : Char) : List Char → List Char
  | [] => []
  | x :: xs => if x = c then xs else dropUntil c xs

/-! ## keywords.go -/

/-- Function `inSlice` from keywords.go (also redeclared verbatim in the CLI source):
linear scan for string membership. -/
def inSlice (a : String) (list : List String) : Bool :=
  list.any (fun b => b == a)

/-- A `KeyVal` is a `"keyword=value"` string (`type KeyVal string`). -/
abbrev KeyVal := String

/-- A `KeyVals` is a list of `KeyVal` (`type KeyVals []KeyVal`). -/
abbrev KeyVals := List String

/-- Method `KeyVal.Keyword` from keywords.go:
returns `""` when the string has no `"="`; otherwise the part of the
trimmed string before the first `"="`, further cut at the first `"."`
(so `"xattr.security.selinux=..."` yields `"xattr"`). -/
def KeyVal.Keyword (kv : KeyVal) : String :=
  if !(goContains kv '=') then ""
  else
    let chunks : List Char := takeUntil '=' (goTrimSpace kv).data
    if !(chunks.contains '.') then ⟨chunks⟩
    else ⟨takeUntil '.' chunks⟩

/-- Method `KeyVal.KeywordSuffix` from keywords.go: the part of the keyword after
the first `"."` (used for xattr), `""` when there is no `"="` or no `"."`. -/
def KeyVal.KeywordSuffix (kv : KeyVal) : String :=
  if !(goContains kv '=') then ""
  else
    let chunks : List Char := takeUntil '=' (goTrimSpace kv).data
    if !(chunks.contains '.') then ""
    else ⟨dropUntil '.' chunks⟩

/-- Method `KeyVal.Value` from keywords.go: the part after the first `"="` of the
trimmed string, `""` when there is no `"="`. -/
def KeyVal.Value (kv : KeyVal) : String :=
  if !(goContains kv '=') then ""
  else ⟨dropUntil '=' (goTrimSpace kv).data⟩

/-- Function `keywordSelector` from keywords.go: keep the keyvals whose keyword is in
`words`. -/
def keywordSelector (keyval words : List String) : List String :=
  keyval.filter (fun kv => inSlice (KeyVal.Keyword kv) words)

/-- Function `NewKeyVals` from keywords.go (the Go version converts `[]string` to
`KeyVals` element-wise; on our model that is the identity). -/
def NewKeyVals (keyvals : List String) : KeyVals :=
  keyvals

/-- Constant `emptyKV` from keywords.go. -/
def emptyKV : KeyVal := ""

/-- Method `KeyVals.Has` from keywords.go: the first keyval whose `Keyword()` is
`keyword`, else `emptyKV`. -/
def KeyVals.Has (kvs : KeyVals) (keyword : String) : KeyVal :=
  match kvs with
  | [] => emptyKV
  | kv :: rest => if KeyVal.Keyword kv = keyword then kv else KeyVals.Has rest keyword

/-- The body of the first loop of `MergeSet`: position `i` of the retained
set list is overwritten with `eKVs.Has(word)` when that lookup is not
`emptyKV` (each position is visited exactly once, and the replacement at a
position does not influence any other position, so the loop is a `map`). -/
def mergeReplace (eKVs : KeyVals) (kv : KeyVal) : KeyVal :=
  let word := KeyVal.Keyword kv
  let ekv := KeyVals.Has eKVs word
  if ekv = emptyKV then kv else ekv

/-- Function `MergeSet` from keywords.go.  The Go loop builds `seenKeywords` by
appending `retList[i].Keyword()` (read before any overwrite) for every `i`,
so after the first loop `seenKeywords` is exactly the keyword list of the
original `setKeyVals`; the second loop then appends every entry keyval whose
keyword is not in `seenKeywords`. -/
def MergeSet (setKeyVals entryKeyVals : List String) : KeyVals :=
  let eKVs := NewKeyVals entryKeyVals
  let seenKeywords := setKeyVals.map KeyVal.Keyword
  (setKeyVals.map (mergeReplace eKVs)) ++
    eKVs.filter (fun ekv => !(inSlice (KeyVal.Keyword ekv) seenKeywords))

/-- Variable `DefaultUpdateKeywords` from update.go. -/
def DefaultUpdateKeywords : List String := ["uid", "gid", "mode", "time"]


/-! ## The vis codec wrapper (`Vis`, flag constants, unvis return codes)

The Go source delegates the actual encoding to the C function `strvis` from
`vis.h`/`vis.c`, which is not among the embedded sources; the encoder itself
is therefore modelled from the spec.  The Go wrapper `Vis`, the `VisFlag`
constants and the `UnvisError` codes are embedded from the source file. -/

/-- Modelled from the spec: `VIS_SP` from the C header `vis.h`
("also encode space"). -/
def VIS_SP : Nat := 0x04

/-- Modelled from the spec: `VIS_TAB` from the C header `vis.h`
("also encode tab"). -/
def VIS_TAB : Nat := 0x08

/-- Modelled from the spec: `VIS_NL` from the C header `vis.h`
("also encode newline"). -/
def VIS_NL : Nat := 0x10

/-- Flag `VisOctal` — use octal `\ddd` format. -/
def VisOctal : Nat := 0x01

/-- Flag `VisCstyle` — use `\n`, `\r`, ... where appropriate. -/
def VisCstyle : Nat := 0x02

/-- Flag `VisSp` — also encode space. -/
def VisSp : Nat := 0x04

/-- Flag `VisTab` — also encode tab. -/
def VisTab : Nat := 0x08

/-- Flag `VisNl` — also encode newline. -/
def VisNl : Nat := 0x10

/-- Flag `VisWhite = (VIS_SP | VIS_TAB | VIS_NL)`, exactly as in the source. -/
def VisWhite : Nat := VIS_SP ||| VIS_TAB ||| VIS_NL

/-- Flag `VisSafe` — only encode "unsafe" characters. -/
def VisSafe : Nat := 0x20

/-- Flag `VisNoslash` — inhibit printing the leading backslash. -/
def VisNoslash : Nat := 0x40

/-- Flag `VisHttpstyle` — http-style `%HH` escapes. -/
def VisHttpstyle : Nat := 0x80

/-- Flag `VisGlob` — encode the glob(3) magic characters. -/
def VisGlob : Nat := 0x100

/-- Modelled from the spec: whether `strvis` escapes character `c` under
`flags` — by default every non-graphic byte is encoded, `VisSp`/`VisTab`/
`VisNl` additionally select space, tab and newline, and `VisGlob` selects
the glob magic characters `*`, `?`, `[` and `#`. -/
def visShouldEncode (flags : Nat) (c : Char) : Bool :=
  let n := c.toNat
  if n == 0x20 then decide (flags &&& VisSp ≠ 0)
  else if n == 0x09 then decide (flags &&& VisTab ≠ 0)
  else if n == 0x0a then decide (flags &&& VisNl ≠ 0)
  else if (decide (flags &&& VisGlob ≠ 0)) &&
      (n == 0x2a || n == 0x3f || n == 0x5b || n == 0x23) then true
  else decide (n < 0x21 ∨ 0x7e < n)

/-- One octal digit. -/
def octalDigit (n : Nat) : Char := Char.ofNat (48 + n % 8)

/-- Three-digit octal rendering of a byte. -/
def octal3 (n : Nat) : String :=
  ⟨[octalDigit (n / 64), octalDigit (n / 8), octalDigit n]⟩

/-- Modelled from the spec: the `strvis` encoding of a single character —
a selected character becomes a backslash followed by three octal digits
(the `Octal` style the manifest encoder uses), a backslash is doubled, and
every other character passes through unchanged. -/
def visChar (flags : Nat) (c : Char) : String :=
  if visShouldEncode flags c then "\\" ++ octal3 (c.toNat % 256)
  else if c = '\\' then "\\\\"
  else String.singleton c

/-- Modelled from the spec: `strvis(dst, src, flags)` encodes the source
character by character. -/
def strvis (flags : Nat) (src : String) : String :=
  String.join (src.data.map (visChar flags))

/-- Constant `math.MaxUint32`. -/
def MaxUint32 : Nat := 4294967295

/-- The flag word the manifest path encoder passes to `strvis`:
`C.int(VisWhite|VisOctal|VisGlob)` in the source. -/
def visFlags : Nat := VisWhite ||| VisOctal ||| VisGlob

/-- Function `Vis` from the source: the guard mirrors
`uint32(len(src)*4+1) >= math.MaxUint32/4` — the length computation happens
in `int` and is truncated to 32 bits by the conversion, hence the
`% 2^32`; on failure the Go code returns `fmt.Errorf("failed to encode: %q", src)`. -/
def Vis (src : String) : Except String String :=
  if (4 * src.length + 1) % 4294967296 ≥ MaxUint32 / 4 then
    Except.error ("failed to encode: " ++ src)
  else
    Except.ok (strvis visFlags src)

/-- Type `UnvisError` is an integer error code (`type UnvisError int`). -/
abbrev UnvisError := Int

/-- Code `UnvisErrorValid` — character valid. -/
def UnvisErrorValid : UnvisError := 1

/-- Code `UnvisErrorValidpush` — character valid, push back passed char
(the constant as it is declared in the source). -/
def UnvisErrorValidpush : UnvisError := 2

/-- Modelled from the spec: the switch in the source's `UnvisError.Error`
names `UnvisErrorValidPush`, an identifier that the embedded source file
does not declare; the spec records this as a typo for `UnvisErrorValidpush`
whose intended value is unambiguous, so both names denote the code `2`. -/
def UnvisErrorValidPush : UnvisError := 2

/-- Code `UnvisErrorNochar` — valid sequence, no character produced. -/
def UnvisErrorNochar : UnvisError := 3

/-- Code `UnvisErrorSynbad` — unrecognized escape sequence. -/
def UnvisErrorSynbad : UnvisError := -1

/-- Code `UnvisErrorUnrecoverable` — decoder in unknown state. -/
def UnvisErrorUnrecoverable : UnvisError := -2

/-- Method `UnvisError.Error` from the source: the Go `switch` compares the
receiver against each constant in order. -/
def UnvisError.Error (ue : UnvisError) : String :=
  if ue = UnvisErrorValid then "character valid"
  else if ue = UnvisErrorValidPush then "character valid, push back passed char"
  else if ue = UnvisErrorNochar then "valid sequence, no character produced"
  else if ue = UnvisErrorSynbad then "unrecognized escape sequence"
  else if ue = UnvisErrorUnrecoverable then "decoder in unknown state (unrecoverable)"
  else "Unknown Error"


/-! ## update.go

`Update` walks the manifest entries, keeps track of the active `/set`
entry, and applies the update functions of the requested keywords.  The
entry model (`Entry`, its type tags, `Failure` and `Result`), the
position sort `byPos` and the two external dependencies — the entry path
resolver `Entry.Path` and the registry `UpdateKeywordFuncs` — live in
source files that are not among the embedded ones, so they are modelled
from the spec; the control flow of `Update` itself is embedded from
update.go.  The process working directory (`os.Getwd`/`os.Chdir`, used by
`Update` with a deferred restore) is modelled as explicit state. -/

/-- Modelled from the spec: the entry kinds of a manifest
(special `/set`-style lines, relative and full paths, `..`, blanks and
comments). -/
inductive EntryType where
  | blank
  | comment
  | special
  | relative
  | dotdot
  | full
deriving DecidableEq

/-- Modelled from the spec: a manifest entry — its kind, its name
(`"/set"`, `"/unset"` or a path token), its raw `keyword=value` strings and
its source position. -/
structure Entry where
  etype : EntryType
  name : String
  keywords : List String
  pos : Nat
deriving DecidableEq

/-- Modelled from the spec: a `Failure` records the path, the keyword and
the observed value or error text (`Failure{Path: ..., Keyword: ..., Got: ...}`
in `Update`). -/
structure Failure where
  path : String
  keyword : String
  got : String
deriving DecidableEq

/-- Modelled from the spec: a `Result` carries the three disjoint lists
`Failures`, `Missing` and `Extra`. -/
structure Result where
  failures : List Failure
  missing : List Entry
  extra : List Entry
deriving DecidableEq

/-- The registry type of `UpdateKeywordFuncs`: a keyword may have an update
function taking the path and the manifest value and returning the new value
or an error (`UpdateKeywordFunc(path, value) → (newValue, error)`);
the registry itself is defined outside the embedded sources, so `Update`
is parametrised over it. -/
abbrev UReg := String → Option (String → String → Except String String)

/-- Ordering entries by source position (used to model `byPos`). -/
def posLe (a b : Entry) : Prop := a.pos ≤ b.pos

instance : DecidableRel posLe := fun a b => Nat.decLe a.pos b.pos

instance : IsTotal Entry posLe := ⟨fun a b => Nat.le_total a.pos b.pos⟩

instance : IsTrans Entry posLe := ⟨fun _ _ _ h h' => Nat.le_trans h h'⟩

/-- Modelled from the spec: `sort.Sort(byPos(...))` orders the entries by
their source position; we model it with a stable insertion sort. -/
def sortByPos (entries : List Entry) : List Entry :=
  List.insertionSort posLe entries

/-- The inner keyval loop of `Update`: for each keyval of `toCheck` whose
keyword is in the caller's `keywords` list, look the keyword up in the
registry and invoke the update function; an error is recorded as a
`Failure` carrying the pathname, the keyword and the error text, and the
loop continues. -/
def processKeyVals (reg : UReg) (keywords : List String) (pathname : String) :
    List String → List Failure
  | [] => []
  | kv :: rest =>
    if !(inSlice (KeyVal.Keyword kv) keywords) then
      processKeyVals reg keywords pathname rest
    else
      match reg (KeyVal.Keyword kv) with
      | none => processKeyVals reg keywords pathname rest
      | some ukFunc =>
        match ukFunc pathname (KeyVal.Value kv) with
        | Except.error msg =>
          { path := pathname, keyword := KeyVal.Keyword kv, got := msg } ::
            processKeyVals reg keywords pathname rest
        | Except.ok _ => processKeyVals reg keywords pathname rest

/-- The keywords of the active `/set` entry (`creator.curSet.Keywords` when
a set is active, nothing otherwise). -/
def curSetKeywords : Option Entry → List String
  | none => []
  | some s => s.keywords

/-- The entry loop of `Update`: special entries switch the active `/set`;
relative and full entries resolve their path (a path error aborts `Update`
with that error) and run the keyval loop on the concatenation of the active
set's keyvals and the entry's own keyvals; other entry kinds are skipped. -/
def updateLoop (pathOf : Entry → Except String String) (reg : UReg)
    (keywords : List String) :
    Option Entry → List Failure → List Entry → Except String (List Failure)
  | _, acc, [] => Except.ok acc
  | curSet, acc, e :: rest =>
    match e.etype with
    | EntryType.special =>
      if e.name = "/set" then updateLoop pathOf reg keywords (some e) acc rest
      else if e.name = "/unset" then updateLoop pathOf reg keywords none acc rest
      else updateLoop pathOf reg keywords curSet acc rest
    | EntryType.relative | EntryType.full =>
      match pathOf e with
      | Except.error err => Except.error err
      | Except.ok pathname =>
        updateLoop pathOf reg keywords curSet
          (acc ++ processKeyVals reg keywords pathname
            (NewKeyVals (curSetKeywords curSet ++ e.keywords))) rest
    | _ => updateLoop pathOf reg keywords curSet acc rest

/-- The failures `Update` accumulates, as a total function (no early
return): per relative or full entry whose path resolves, the failures of
the keyval loop on the concatenated set and entry keyvals. -/
def updateFailures (pathOf : Entry → Except String String) (reg : UReg)
    (keywords : List String) : Option Entry → List Entry → List Failure
  | _, [] => []
  | curSet, e :: rest =>
    match e.etype with
    | EntryType.special =>
      if e.name = "/set" then updateFailures pathOf reg keywords (some e) rest
      else if e.name = "/unset" then updateFailures pathOf reg keywords none rest
      else updateFailures pathOf reg keywords curSet rest
    | EntryType.relative | EntryType.full =>
      (match pathOf e with
       | Except.ok pathname =>
         processKeyVals reg keywords pathname
           (NewKeyVals (curSetKeywords curSet ++ e.keywords))
       | Except.error _ => []) ++ updateFailures pathOf reg keywords curSet rest
    | _ => updateFailures pathOf reg keywords curSet rest

/-- The process state `Update` interacts with: the current working
directory together with the failure behaviour of `os.Getwd` and of
`os.Chdir` (the latter as a predicate on the target directory). -/
structure OsWorld where
  cwd : String
  getwdFails : Bool
  chdirFails : String → Bool

/-- Function `Update` from update.go.  `curDir, err := os.Getwd()` is taken first;
when it succeeds, `os.Chdir(curDir)` is deferred, which runs on every exit
path (and silently leaves the directory unchanged when that chdir itself
fails).  Then `os.Chdir(root)` — an error there returns `(nil, err)`.  The
entries are sorted by position and the entry loop runs; a path resolution
error returns `(nil, err)`, otherwise the accumulated failures are returned
in a `Result` with a nil error. -/
def Update (root : String) (pathOf : Entry → Except String String) (reg : UReg)
    (entries : List Entry) (keywords : List String) (w : OsWorld) :
    Except String Result × OsWorld :=
  let curDir : Option String := if w.getwdFails then none else some w.cwd
  let restore : OsWorld → OsWorld := fun w' =>
    match curDir with
    | none => w'
    | some c => if w'.chdirFails c then w' else { w' with cwd := c }
  if w.chdirFails root then
    (Except.error "chdir failed", restore w)
  else
    let w1 : OsWorld := { w with cwd := root }
    match updateLoop pathOf reg keywords none [] (sortByPos entries) with
    | Except.error err => (Except.error err, restore w1)
    | Except.ok fails =>
      (Except.ok { failures := fails, missing := [], extra := [] }, restore w1)

/-- A probing registry for every keyword: the update function always fails
and reports the manifest value it was handed, making the sequence of
invocations observable in the accumulated failures. -/
def regProbe : UReg := fun _ => some (fun _ v => Except.error v)

/-- The failure a probing-registry invocation records for a keyval. -/
def probeFailure (pathname : String) (kv : String) : Failure :=
  Failure.mk pathname (KeyVal.Keyword kv) (KeyVal.Value kv)


/-! ## The gomtree command-line front end

The `main` of the `gomtree` binary is embedded as a function from the
parsed flag values and the outcomes of the external operations it invokes
(file opening, manifest parsing, tar streaming, walking, checking,
updating, output writing — all of which live outside the embedded
sources and are taken as inputs) to the process exit status.  The Go
program produces status `1` either through the `isErr` flag checked by the
outermost deferred function or through a directly deferred `os.Exit(1)`;
both are modelled by returning `1`. -/

/-- The parsed command-line flags of gomtree (field names follow the
source's flag variables). -/
structure CLIFlags where
  flCreate : Bool
  flFile : String
  flPath : String
  flAddKeywords : String
  flUseKeywords : String
  flUpdateAttributes : Bool
  flTar : String
  flBsdKeywords : Bool
  flDebug : Bool
  flListKeywords : Bool
  flListUsedKeywords : Bool
  flResultFormat : String
  flVersion : Bool

/-- Outcomes of the fallible external operations `main` performs, in the
order the source performs them. -/
structure MainOps where
  openSpec : Except String Unit
  parseSpec : Except String Unit
  marshalUsed : Except String Unit
  openTar : Except String Unit
  tarCopy : Except String Unit
  tarClose : Except String Unit
  tarHierarchy : Except String Unit
  walk : Except String Unit
  update : Except String Result
  check : Except String Result
  tarCheck : Except String Result
  writeOut : Except String Unit
  pathsOk : Bool

/-- Whether an operation outcome is an error. -/
def isError {α : Type} : Except String α → Bool
  | Except.error _ => true
  | Except.ok _ => false

/-- The keys of the `formats` map (`--result-format` accepts `bsd`, `json`
and `path`). -/
def validFormat (f : String) : Bool :=
  f == "bsd" || f == "json" || f == "path"

/-- The exit status of gomtree's `main`, embedded from the source: each
early `return` after setting `isErr`, and each `defer os.Exit(1)`, yields
status `1`; falling off the end with `isErr` unset yields status `0`.
`dh` is non-nil exactly when `-f` was given without `-c` and both the open
and the parse succeeded (any failure there already returned); `tdh` is
non-nil exactly when `-T` was given and the tar pipeline succeeded. -/
def gomtreeMain (fl : CLIFlags) (ops : MainOps) : Nat :=
  if fl.flVersion then 0
  else if fl.flListKeywords then 0
  else if !(validFormat fl.flResultFormat) then 1
  else if (fl.flFile != "" && !fl.flCreate) && isError ops.openSpec then 1
  else if (fl.flFile != "" && !fl.flCreate) && isError ops.parseSpec then 1
  else if fl.flListUsedKeywords then
    if fl.flFile == "" then 1
    else if fl.flResultFormat == "json" && isError ops.marshalUsed then 1
    else 0
  else if fl.flUpdateAttributes && (fl.flTar != "") then 1
  else if ((fl.flTar != "") && (fl.flTar != "-")) && isError ops.openTar then 1
  else if (fl.flTar != "") && isError ops.tarCopy then 1
  else if (fl.flTar != "") && isError ops.tarClose then 1
  else if (fl.flTar != "") && isError ops.tarHierarchy then 1
  else if fl.flCreate then
    if fl.flTar != "" then 0
    else if isError ops.walk then 1
    else 0
  else if fl.flUpdateAttributes && (fl.flFile != "") then
    if isError ops.update then 1 else 0
  else if (fl.flTar != "") || (fl.flFile != "") then
    match (if fl.flTar != "" then ops.tarCheck else ops.check) with
    | Except.error _ => 1
    | Except.ok res =>
      if (res.failures.length > 0) && isError ops.writeOut then 1
      else if (res.extra.length > 0) && !ops.pathsOk then 1
      else if (res.missing.length > 0) && !ops.pathsOk then 1
      else if res.failures.length > 0 || res.extra.length > 0 ||
          res.missing.length > 0 then 1
      else 0
  else 1

/-- The flags of a plain validation invocation `gomtree -f m`. -/
def flagsValidation : CLIFlags :=
  CLIFlags.mk false "m" "" "" "" false "" false false false false "bsd" false

/-- External-operation outcomes in which everything succeeds and the check
is clean. -/
def opsClean : MainOps :=
  MainOps.mk (Except.ok ()) (Except.ok ()) (Except.ok ()) (Except.ok ())
    (Except.ok ()) (Except.ok ()) (Except.ok ()) (Except.ok ())
    (Except.ok (Result.mk [] [] [])) (Except.ok (Result.mk [] [] []))
    (Except.ok (Result.mk [] [] [])) (Except.ok ()) true


/-- An input whose required vis output size `4*len+1` is `2^32 + 1`:
large enough that the `uint32` conversion in `Vis`'s guard wraps around. -/
def giantInput : String := ⟨List.replicate 1073741824 'a'⟩

/-- A process state whose original working directory `"/home"` can no
longer be entered (`chdir` back to it fails), while `getwd` succeeds. -/
def lostHomeWorld : OsWorld :=
  { cwd := "/home", getwdFails := false, chdirFails := fun d => d == "/home" }

/-! ## Lemmas about the keyword functions -/

theorem inSlice_iff (a : String) (l : List String) : inSlice a l = true ↔ a ∈ l := by
  simp [inSlice, List.any_eq_true]

theorem keyword_of_not_contains {kv : KeyVal} (h : goContains kv '=' = false) :
    KeyVal.Keyword kv = "" := by
  simp [KeyVal.Keyword, h]

theorem keyword_emptyKV : KeyVal.Keyword emptyKV = "" := by decide

theorem contains_of_keyword_ne {kv : KeyVal} (h : KeyVal.Keyword kv ≠ "") :
    goContains kv '=' = true := by
  cases hc : goContains kv '=' with
  | false => exact absurd (keyword_of_not_contains hc) h
  | true => rfl

theorem has_nil (k : String) : KeyVals.Has [] k = emptyKV := rfl

theorem has_cons (kv : KeyVal) (rest : KeyVals) (k : String) :
    KeyVals.Has (kv :: rest) k =
      if KeyVal.Keyword kv = k then kv else KeyVals.Has rest k := rfl

theorem keyword_has {kvs : KeyVals} {k : String} (h : KeyVals.Has kvs k ≠ emptyKV) :
    KeyVal.Keyword (KeyVals.Has kvs k) = k := by
  induction kvs with
  | nil => exact absurd rfl h
  | cons kv rest ih =>
    rw [has_cons] at h ⊢
    by_cases hk : KeyVal.Keyword kv = k
    · rw [if_pos hk]; exact hk
    · rw [if_neg hk] at h ⊢; exact ih h

theorem has_mem {kvs : KeyVals} {k : String} (h : KeyVals.Has kvs k ≠ emptyKV) :
    KeyVals.Has kvs k ∈ kvs := by
  induction kvs with
  | nil => exact absurd rfl h
  | cons kv rest ih =>
    rw [has_cons] at h ⊢
    by_cases hk : KeyVal.Keyword kv = k
    · rw [if_pos hk]; exact List.mem_cons_self _ _
    · rw [if_neg hk] at h ⊢; exact List.mem_cons_of_mem _ (ih h)

theorem has_ne_of_mem {kvs : KeyVals} {k : String} (hk : k ≠ "")
    (h : ∃ kv ∈ kvs, KeyVal.Keyword kv = k) : KeyVals.Has kvs k ≠ emptyKV := by
  induction kvs with
  | nil => simp at h
  | cons kv rest ih =>
    rw [has_cons]
    by_cases hkv : KeyVal.Keyword kv = k
    · rw [if_pos hkv]
      intro he
      rw [he, keyword_emptyKV] at hkv
      exact hk hkv.symm
    · rw [if_neg hkv]
      apply ih
      obtain ⟨x, hx, hxk⟩ := h
      rcases List.mem_cons.mp hx with rfl | hx'
      · exact absurd hxk hkv
      · exact ⟨x, hx', hxk⟩

theorem has_empty_of_forall {kvs : KeyVals} {k : String}
    (h : ∀ kv ∈ kvs, KeyVal.Keyword kv ≠ k) : KeyVals.Has kvs k = emptyKV := by
  induction kvs with
  | nil => rfl
  | cons kv rest ih =>
    rw [has_cons, if_neg (h kv (List.mem_cons_self _ _))]
    exact ih (fun x hx => h x (List.mem_cons_of_mem _ hx))

theorem keyword_mergeReplace (E : KeyVals) (kv : KeyVal) :
    KeyVal.Keyword (mergeReplace E kv) = KeyVal.Keyword kv := by
  simp only [mergeReplace]
  by_cases h : KeyVals.Has E (KeyVal.Keyword kv) = emptyKV
  · rw [if_pos h]
  · rw [if_neg h]; exact keyword_has h

theorem has_append_left {A : KeyVals} (B : KeyVals) {k : String}
    (h : KeyVals.Has A k ≠ emptyKV) :
    KeyVals.Has (A ++ B) k = KeyVals.Has A k := by
  induction A with
  | nil => exact absurd rfl h
  | cons kv rest ih =>
    rw [has_cons] at h
    rw [List.cons_append, has_cons, has_cons]
    by_cases hkv : KeyVal.Keyword kv = k
    · rw [if_pos hkv, if_pos hkv]
    · rw [if_neg hkv] at h
      rw [if_neg hkv, if_neg hkv]
      exact ih h

theorem has_map_mergeReplace (E : KeyVals) (k : String) (hk : k ≠ "")
    (hE : ∃ kv ∈ E, KeyVal.Keyword kv = k) :
    ∀ S : List String, (∃ kv ∈ S, KeyVal.Keyword kv = k) →
      KeyVals.Has (S.map (mergeReplace E)) k = KeyVals.Has E k := by
  intro S
  induction S with
  | nil => intro h; simp at h
  | cons kv rest ih =>
    intro h
    rw [List.map_cons, has_cons]
    by_cases hkv : KeyVal.Keyword kv = k
    · rw [if_pos (by rw [keyword_mergeReplace]; exact hkv)]
      simp only [mergeReplace]
      rw [hkv, if_neg (has_ne_of_mem hk hE)]
    · rw [if_neg (by rw [keyword_mergeReplace]; exact hkv)]
      apply ih
      obtain ⟨x, hx, hxk⟩ := h
      rcases List.mem_cons.mp hx with rfl | hx'
      · exact absurd hxk hkv
      · exact ⟨x, hx', hxk⟩

theorem mergeSet_eq (S E : List String) :
    MergeSet S E = S.map (mergeReplace E) ++
      E.filter (fun ekv => !(inSlice (KeyVal.Keyword ekv) (S.map KeyVal.Keyword))) := rfl


/-! ## Claim C1 -/

/-- C1 (counterexample to the claim as stated): the keyval `"a"` carries no
`"="`, so its keyword is the empty string, and the keyval `""` in the entry
list also has keyword `""` — both lists therefore contain a keyval for the
keyword `""`, yet `MergeSet(["a"], [""]).Has("")` is `"a"` while
`[""].Has("")` is `""`: the entry's value does not win, because `Has` on a
keyval that is itself `emptyKV` is indistinguishable from a failed lookup
inside `MergeSet`. -/
theorem mergeSet_precedence_cex :
    (∃ kv ∈ (["a"] : List String), KeyVal.Keyword kv = "") ∧
    (∃ kv ∈ ([""] : List String), KeyVal.Keyword kv = "") ∧
    KeyVals.Has (MergeSet ["a"] [""]) "" ≠ KeyVals.Has [""] "" := by decide

/-- C1 (amended): for every nonempty keyword `k` present in both lists, the
merged list's `Has(k)` equals the entry list's `Has(k)` (the entry's value
wins); every keyval of `S` whose keyword has no occurrence in `E` is
retained in `MergeSet(S, E)`; and every keyval of `E` whose keyword has no
occurrence in `S` appears in the appended region after the first
`S.length` positions. -/
theorem mergeSet_precedence :
    (∀ (S E : List String) (k : String), k ≠ "" →
      (∃ kv ∈ S, KeyVal.Keyword kv = k) → (∃ kv ∈ E, KeyVal.Keyword kv = k) →
      KeyVals.Has (MergeSet S E) k = KeyVals.Has E k) ∧
    (∀ (S E : List String), ∀ kv ∈ S,
      (∀ e ∈ E, KeyVal.Keyword e ≠ KeyVal.Keyword kv) → kv ∈ MergeSet S E) ∧
    (∀ (S E : List String), ∀ e ∈ E,
      (∀ s ∈ S, KeyVal.Keyword s ≠ KeyVal.Keyword e) →
      e ∈ (MergeSet S E).drop S.length) := by
  refine ⟨?_, ?_, ?_⟩
  · intro S E k hk hS hE
    have h1 := has_map_mergeReplace E k hk hE S hS
    have h2 : KeyVals.Has (S.map (mergeReplace E)) k ≠ emptyKV := by
      rw [h1]; exact has_ne_of_mem hk hE
    rw [mergeSet_eq, has_append_left _ h2, h1]
  · intro S E kv hmem hnone
    rw [mergeSet_eq]
    apply List.mem_append_left
    have hfix : mergeReplace E kv = kv := by
      simp only [mergeReplace]
      rw [if_pos (has_empty_of_forall hnone)]
    have hm : mergeReplace E kv ∈ S.map (mergeReplace E) :=
      List.mem_map_of_mem _ hmem
    rwa [hfix] at hm
  · intro S E e he hnone
    rw [mergeSet_eq]
    have hlen : (S.map (mergeReplace E)).length = S.length := List.length_map _ _
    rw [← hlen, List.drop_left]
    apply List.mem_filter.mpr
    refine ⟨he, ?_⟩
    simp only [Bool.not_eq_true']
    cases hins : inSlice (KeyVal.Keyword e) (S.map KeyVal.Keyword) with
    | false => rfl
    | true =>
      obtain ⟨s, hs, hseq⟩ := List.mem_map.mp ((inSlice_iff _ _).mp hins)
      exact absurd hseq (hnone s hs)

/-- C1 (witness): the merge of `/set` keyvals `uid=0 gid=0` with entry
keyvals `uid=1` gives the entry's `uid`. -/
theorem mergeSet_precedence_witness :
    KeyVals.Has (MergeSet ["uid=0", "gid=0"] ["uid=1"]) "uid" =
      KeyVals.Has ["uid=1"] "uid" :=
  mergeSet_precedence.1 ["uid=0", "gid=0"] ["uid=1"] "uid" (by decide)
    (by decide) (by decide)

/-! ## Claim C6 -/

/-- C6 (counterexample to the claim as stated): `xattr.a.b=x` and
`xattr.c.d=y` name distinct extended attributes (their keyword suffixes
differ), but `KeyVal.Keyword` truncates both to `"xattr"`; merging a set
carrying the first with an entry carrying the second yields a single
keyval — the entry's attribute replaces the set's different attribute
instead of both remaining. -/
theorem mergeSet_xattr_cex :
    KeyVal.KeywordSuffix "xattr.a.b=x" ≠ KeyVal.KeywordSuffix "xattr.c.d=y" ∧
    KeyVal.Keyword "xattr.a.b=x" = "xattr" ∧
    KeyVal.Keyword "xattr.c.d=y" = "xattr" ∧
    MergeSet ["xattr.a.b=x"] ["xattr.c.d=y"] = ["xattr.c.d=y"] ∧
    "xattr.a.b=x" ∉ MergeSet ["xattr.a.b=x"] ["xattr.c.d=y"] := by decide

/-- C6 (amended): keywords in the sense of `KeyVal.Keyword` — which maps
every `xattr.<ns>.<name>` keyval to the bare prefix `"xattr"` — appear at
most once in `MergeSet(S, E)` whenever they appear at most once in `S` and
at most once in `E`; distinct xattr attributes share the keyword `"xattr"`,
so an entry xattr keyval replaces the set's xattr keyval even when the two
name different attributes. -/
theorem mergeSet_nodup_keywords :
    ∀ S E : List String, (S.map KeyVal.Keyword).Nodup →
      (E.map KeyVal.Keyword).Nodup → ((MergeSet S E).map KeyVal.Keyword).Nodup := by
  intro S E hS hE
  rw [mergeSet_eq, List.map_append]
  have h1 : (S.map (mergeReplace E)).map KeyVal.Keyword = S.map KeyVal.Keyword := by
    rw [List.map_map]
    exact List.map_congr_left (fun a _ => keyword_mergeReplace E a)
  have hsub : List.Sublist
      ((E.filter (fun ekv =>
        !(inSlice (KeyVal.Keyword ekv) (S.map KeyVal.Keyword)))).map KeyVal.Keyword)
      (E.map KeyVal.Keyword) :=
    List.Sublist.map _ (List.filter_sublist E)
  apply List.Nodup.append
  · rw [h1]; exact hS
  · exact hE.sublist hsub
  · intro a ha1 ha2
    rw [h1] at ha1
    obtain ⟨e, he, heq⟩ := List.mem_map.mp ha2
    have hg := (List.mem_filter.mp he).2
    rw [Bool.not_eq_true'] at hg
    rw [← heq] at ha1
    exact absurd ((inSlice_iff _ _).mpr (by
      obtain ⟨s, hs, hseq⟩ := List.mem_map.mp ha1
      exact List.mem_map.mpr ⟨s, hs, hseq⟩)) (by simp [hg])

/-- C6 (witness): merging two lists with distinct keywords keeps each
keyword at most once. -/
theorem mergeSet_nodup_keywords_witness :
    ((MergeSet ["uid=0", "gid=0"] ["uid=1", "mode=0644"]).map KeyVal.Keyword).Nodup :=
  mergeSet_nodup_keywords ["uid=0", "gid=0"] ["uid=1", "mode=0644"]
    (by decide) (by decide)

/-! ## Claim C10 -/

/-- C10: a keyval string with no `"="` has empty keyword, keyword suffix
and value; consequently `KeyVals.Has` on a nonempty keyword only ever
returns a keyval containing `"="` (when it finds one at all), and
`keywordSelector` against a word list of nonempty keywords never selects a
valueless keyval. -/
theorem valueless_keyvals :
    (∀ kv : KeyVal, goContains kv '=' = false →
      KeyVal.Keyword kv = "" ∧ KeyVal.KeywordSuffix kv = "" ∧ KeyVal.Value kv = "") ∧
    (∀ (kvs : KeyVals) (k : String), k ≠ "" → KeyVals.Has kvs k ≠ emptyKV →
      goContains (KeyVals.Has kvs k) '=' = true) ∧
    (∀ keyval words : List String, (∀ w ∈ words, w ≠ "") →
      ∀ kv ∈ keywordSelector keyval words, goContains kv '=' = true) := by
  refine ⟨?_, ?_, ?_⟩
  · intro kv h
    refine ⟨keyword_of_not_contains h, ?_, ?_⟩
    · simp [KeyVal.KeywordSuffix, h]
    · simp [KeyVal.Value, h]
  · intro kvs k hk hne
    apply contains_of_keyword_ne
    rw [keyword_has hne]
    exact hk
  · intro keyval words hw kv hkv
    have hsel := (List.mem_filter.mp hkv).2
    have hmem : KeyVal.Keyword kv ∈ words := (inSlice_iff _ _).mp hsel
    exact contains_of_keyword_ne (hw _ hmem)

/-- C10 (witness): the bare directives carry no keyword, suffix or value,
and a selector over `uid`/`gid` never picks them. -/
theorem valueless_keyvals_witness :
    (KeyVal.Keyword "ignore" = "" ∧ KeyVal.KeywordSuffix "ignore" = "" ∧
      KeyVal.Value "ignore" = "") ∧
    goContains (KeyVals.Has ["optional", "uid=0"] "uid") '=' = true :=
  ⟨valueless_keyvals.1 "ignore" (by decide),
   valueless_keyvals.2.1 ["optional", "uid=0"] "uid" (by decide) (by decide)⟩


/-! ## Claims C4 and C5 -/

theorem vis_ok_of_small {src : String} (h : 4 * src.length + 1 < MaxUint32 / 4) :
    Vis src = Except.ok (strvis visFlags src) := by
  have hmod : (4 * src.length + 1) % 4294967296 = 4 * src.length + 1 :=
    Nat.mod_eq_of_lt (lt_trans h (by norm_num [MaxUint32]))
  simp only [Vis]
  rw [if_neg]
  rw [hmod]
  exact Nat.not_le.mpr h

/-- C4 (counterexample to the claim as stated): for an input of length
`2^30` the required output size `4*len+1 = 2^32 + 1` exceeds the size
ceiling `MaxUint32/4`, yet `Vis` succeeds — the `uint32` conversion in the
guard wraps `2^32 + 1` around to `1`, which passes the check. -/
theorem vis_size_ceiling_cex :
    4 * giantInput.length + 1 ≥ MaxUint32 / 4 ∧
    ∃ out, Vis giantInput = Except.ok out := by
  have hlen : giantInput.length = 1073741824 := by
    show (List.replicate 1073741824 'a').length = 1073741824
    exact List.length_replicate _ _
  constructor
  · rw [hlen]; norm_num [MaxUint32]
  · refine ⟨strvis visFlags giantInput, ?_⟩
    have hguard : ¬ ((4 * giantInput.length + 1) % 4294967296 ≥ MaxUint32 / 4) := by
      rw [hlen]; norm_num [MaxUint32]
    simp only [Vis]
    rw [if_neg hguard]

/-- C4 (amended): `Vis` never fails on inputs whose required output size
`4*len+1` is below the guard bound `MaxUint32/4`, and whenever `Vis` does
return an error the required output size is at least that ceiling; the
converse — that every oversized input is rejected — fails, because the
guard compares the size after truncation to 32 bits. -/
theorem vis_error_guard (src : String) :
    (4 * src.length + 1 < MaxUint32 / 4 → Vis src = Except.ok (strvis visFlags src)) ∧
    (∀ e, Vis src = Except.error e → 4 * src.length + 1 ≥ MaxUint32 / 4) := by
  constructor
  · exact fun h => vis_ok_of_small h
  · intro e he
    by_cases hc : (4 * src.length + 1) % 4294967296 ≥ MaxUint32 / 4
    · calc MaxUint32 / 4 ≤ (4 * src.length + 1) % 4294967296 := hc
        _ ≤ 4 * src.length + 1 := Nat.mod_le _ _
    · simp only [Vis, if_neg hc] at he
      exact Except.noConfusion he

/-- C4 (witness): a three-byte input is far below the ceiling and encodes
without error. -/
theorem vis_error_guard_witness : Vis "abc" = Except.ok (strvis visFlags "abc") :=
  (vis_error_guard "abc").1 (by decide)

/-- C5: the manifest path encoder always calls `strvis` with exactly
`White | Octal | Glob` — `White` being `Sp | Tab | Nl` — and with none of
the other recognized flags (`Cstyle`, `Safe`, `NoSlash`, `HttpStyle`) set. -/
theorem vis_flags_white_octal_glob :
    VisWhite = VisSp ||| VisTab ||| VisNl ∧
    visFlags = VisWhite ||| VisOctal ||| VisGlob ∧
    visFlags &&& VisCstyle = 0 ∧ visFlags &&& VisSafe = 0 ∧
    visFlags &&& VisNoslash = 0 ∧ visFlags &&& VisHttpstyle = 0 ∧
    ∀ src : String, 4 * src.length + 1 < MaxUint32 / 4 →
      Vis src = Except.ok (strvis (VisWhite ||| VisOctal ||| VisGlob) src) := by
  refine ⟨by decide, by decide, by decide, by decide, by decide, by decide, ?_⟩
  intro src h
  exact vis_ok_of_small h

/-- C5 (witness): a concrete encoding call goes through with the
`White | Octal | Glob` flag word. -/
theorem vis_flags_witness :
    Vis "b" = Except.ok (strvis (VisWhite ||| VisOctal ||| VisGlob) "b") :=
  vis_flags_white_octal_glob.2.2.2.2.2.2 "b" (by decide)

/-! ## Claim C7 -/

/-- C7: the five unvis return codes are pairwise distinct, the three
success codes are positive and the two error codes negative, the constant
written `UnvisErrorValidPush` in the `Error` switch denotes the same code
as the declared `UnvisErrorValidpush`, `Error` maps each of the five codes
to its documented descriptive message (so the five messages are pairwise
distinct and none of the five ever yields the fallback), and every value
outside the five maps to `"Unknown Error"`. -/
theorem unvis_return_codes :
    ([UnvisErrorValid, UnvisErrorValidpush, UnvisErrorNochar, UnvisErrorSynbad,
        UnvisErrorUnrecoverable].Pairwise (· ≠ ·)) ∧
    (0 < UnvisErrorValid ∧ 0 < UnvisErrorValidpush ∧ 0 < UnvisErrorNochar ∧
      UnvisErrorSynbad < 0 ∧ UnvisErrorUnrecoverable < 0) ∧
    UnvisErrorValidpush = UnvisErrorValidPush ∧
    (UnvisError.Error UnvisErrorValid = "character valid" ∧
      UnvisError.Error UnvisErrorValidpush =
        "character valid, push back passed char" ∧
      UnvisError.Error UnvisErrorNochar =
        "valid sequence, no character produced" ∧
      UnvisError.Error UnvisErrorSynbad = "unrecognized escape sequence" ∧
      UnvisError.Error UnvisErrorUnrecoverable =
        "decoder in unknown state (unrecoverable)") ∧
    ([UnvisError.Error UnvisErrorValid, UnvisError.Error UnvisErrorValidpush,
        UnvisError.Error UnvisErrorNochar, UnvisError.Error UnvisErrorSynbad,
        UnvisError.Error UnvisErrorUnrecoverable].Pairwise (· ≠ ·)) ∧
    (∀ v : UnvisError, v ≠ UnvisErrorValid → v ≠ UnvisErrorValidpush →
      v ≠ UnvisErrorNochar → v ≠ UnvisErrorSynbad → v ≠ UnvisErrorUnrecoverable →
      UnvisError.Error v = "Unknown Error") := by
  refine ⟨by decide, by decide, by decide, by decide, by decide, ?_⟩
  intro v h1 h2 h3 h4 h5
  have h2' : v ≠ UnvisErrorValidPush := h2
  simp only [UnvisError.Error, if_neg h1, if_neg h2', if_neg h3, if_neg h4, if_neg h5]

/-- C7 (witness): an out-of-range code yields the fallback message. -/
theorem unvis_return_codes_witness : UnvisError.Error 7 = "Unknown Error" :=
  unvis_return_codes.2.2.2.2.2 7 (by decide) (by decide) (by decide) (by decide)
    (by decide)



/-! ## Lemmas about `Update` -/

theorem processKeyVals_probe (keywords : List String) (pathname : String) :
    ∀ l : List String, processKeyVals regProbe keywords pathname l =
      (l.filter (fun kv => inSlice (KeyVal.Keyword kv) keywords)).map
        (probeFailure pathname) := by
  intro l
  induction l with
  | nil => rfl
  | cons kv rest ih =>
    cases h : inSlice (KeyVal.Keyword kv) keywords with
    | false => simp [processKeyVals, h, ih]
    | true => simp [processKeyVals, regProbe, probeFailure, h, ih]

theorem sortByPos_pair {s e : Entry} (h : posLe s e) : sortByPos [s, e] = [s, e] := by
  simp [sortByPos, List.insertionSort, List.orderedInsert, h]

theorem updateLoop_eq_failures (pathOf : Entry → Except String String) (reg : UReg)
    (keywords : List String) :
    ∀ (entries : List Entry) (curSet : Option Entry) (acc : List Failure),
      (∀ e ∈ entries, ∃ p, pathOf e = Except.ok p) →
      updateLoop pathOf reg keywords curSet acc entries =
        Except.ok (acc ++ updateFailures pathOf reg keywords curSet entries) := by
  intro entries
  induction entries with
  | nil => intro curSet acc _; simp [updateLoop, updateFailures]
  | cons e rest ih =>
    intro curSet acc h
    have hrest : ∀ e' ∈ rest, ∃ p, pathOf e' = Except.ok p :=
      fun e' he' => h e' (List.mem_cons_of_mem _ he')
    cases hety : e.etype with
    | special =>
      by_cases hn : e.name = "/set"
      · simp only [updateLoop, updateFailures, hety, if_pos hn]
        exact ih (some e) acc hrest
      · by_cases hn' : e.name = "/unset"
        · simp only [updateLoop, updateFailures, hety, if_neg hn, if_pos hn']
          exact ih none acc hrest
        · simp only [updateLoop, updateFailures, hety, if_neg hn, if_neg hn']
          exact ih curSet acc hrest
    | relative =>
      obtain ⟨p, hp⟩ := h e (List.mem_cons_self _ _)
      simp only [updateLoop, updateFailures, hety, hp]
      rw [ih curSet _ hrest, List.append_assoc]
    | full =>
      obtain ⟨p, hp⟩ := h e (List.mem_cons_self _ _)
      simp only [updateLoop, updateFailures, hety, hp]
      rw [ih curSet _ hrest, List.append_assoc]
    | blank =>
      simp only [updateLoop, updateFailures, hety]
      exact ih curSet acc hrest
    | comment =>
      simp only [updateLoop, updateFailures, hety]
      exact ih curSet acc hrest
    | dotdot =>
      simp only [updateLoop, updateFailures, hety]
      exact ih curSet acc hrest

/-! ## Claim C2 -/

/-- C2 (counterexample to the claim as stated): with a `/set uid=0` active
and an entry carrying `uid=1`, a probing registry (whose update function
always fails, echoing the value it was invoked with) records two
invocations of the `uid` update function — one with the set's value `0`
and one with the entry's value `1` — although the effective list
`MergeSet(["uid=0"], ["uid=1"])` holds only `uid=1`: `Update` invokes the
update function for the keyval `uid=0`, which is not among the `MergeSet`
effective keyvals. -/
theorem update_mergeSet_cex :
    (Update "r" (fun _ => Except.ok "foo") regProbe
        [Entry.mk EntryType.special "/set" ["uid=0"] 0,
         Entry.mk EntryType.relative "foo" ["uid=1"] 1] ["uid"]
        (OsWorld.mk "/" false (fun _ => false))).1 =
      Except.ok (Result.mk [Failure.mk "foo" "uid" "0",
        Failure.mk "foo" "uid" "1"] [] []) ∧
    MergeSet ["uid=0"] ["uid=1"] = ["uid=1"] ∧
    keywordSelector (MergeSet ["uid=0"] ["uid=1"]) ["uid"] = ["uid=1"] := by
  exact ⟨rfl, by decide, by decide⟩

/-- C2 (amended): for a non-special entry processed under an active `/set`,
`Update` runs the keyval loop over the concatenation of the set's keyvals
and the entry's keyvals — not over their `MergeSet` — so for a shared
keyword the update function runs for both values, the set's first and the
entry's last (the entry's value therefore takes effect last); an update
function is invoked only for keyvals whose keyword is in the
caller-supplied keyword list, whose library default `DefaultUpdateKeywords`
is `{uid, gid, mode, time}`.  The probing registry makes the invocation
sequence observable as the recorded failures. -/
theorem update_checked_keyvals (root : String)
    (pathOf : Entry → Except String String) (keywords : List String)
    (s e : Entry) (p : String) (w : OsWorld)
    (hs : s.etype = EntryType.special) (hname : s.name = "/set")
    (he : e.etype = EntryType.relative ∨ e.etype = EntryType.full)
    (hpos : s.pos ≤ e.pos) (hp : pathOf e = Except.ok p)
    (hchdir : w.chdirFails root = false) :
    (Update root pathOf regProbe [s, e] keywords w).1 =
      Except.ok (Result.mk
        (((s.keywords ++ e.keywords).filter
          (fun kv => inSlice (KeyVal.Keyword kv) keywords)).map
          (probeFailure p)) [] []) ∧
    DefaultUpdateKeywords = ["uid", "gid", "mode", "time"] := by
  refine ⟨?_, rfl⟩
  have hsort := sortByPos_pair (h := hpos)
  rcases he with he | he <;>
    simp [Update, hchdir, hsort, updateLoop, hs, hname, he, hp,
      processKeyVals_probe, NewKeyVals, curSetKeywords]

/-- C2 (witness): a concrete instance of the amended statement. -/
theorem update_checked_keyvals_witness :
    (Update "r" (fun _ => Except.ok "d") regProbe
        [Entry.mk EntryType.special "/set" ["gid=5"] 0,
         Entry.mk EntryType.full "d" ["mode=0644"] 1] ["gid", "mode"]
        (OsWorld.mk "/" false (fun _ => false))).1 =
      Except.ok (Result.mk
        (((["gid=5"] ++ ["mode=0644"] : List String).filter
          (fun kv => inSlice (KeyVal.Keyword kv) ["gid", "mode"])).map
          (probeFailure "d")) [] []) ∧
    DefaultUpdateKeywords = ["uid", "gid", "mode", "time"] :=
  update_checked_keyvals "r" (fun _ => Except.ok "d") ["gid", "mode"]
    (Entry.mk EntryType.special "/set" ["gid=5"] 0)
    (Entry.mk EntryType.full "d" ["mode=0644"] 1) "d"
    (OsWorld.mk "/" false (fun _ => false))
    rfl rfl (Or.inr rfl) (by decide) rfl rfl

/-! ## Claim C3 -/

/-- C3: as long as every entry's path resolves and the initial chdir into
the root succeeds, `Update` returns a nil error for every registry —
including registries whose update functions always fail; each update
error is recorded (by the keyval loop embodied in `updateFailures`) as a
`Failure` carrying the pathname and the keyword, and processing continues
with the remaining keyvals and entries. -/
theorem update_error_not_fatal (root : String)
    (pathOf : Entry → Except String String) (reg : UReg) (entries : List Entry)
    (keywords : List String) (w : OsWorld)
    (hpath : ∀ e, ∃ p, pathOf e = Except.ok p)
    (hchdir : w.chdirFails root = false) :
    (Update root pathOf reg entries keywords w).1 =
      Except.ok (Result.mk
        (updateFailures pathOf reg keywords none (sortByPos entries)) [] []) := by
  have hl := updateLoop_eq_failures pathOf reg keywords (sortByPos entries) none []
    (fun e _ => hpath e)
  simp [Update, hchdir, hl]

/-- C3 (witness): with an always-failing registry over two entries,
`Update` still returns a nil error. -/
theorem update_error_not_fatal_witness :
    (Update "r" (fun _ => Except.ok "f") regProbe
        [Entry.mk EntryType.relative "f" ["uid=1"] 0,
         Entry.mk EntryType.relative "g" ["gid=2"] 1] ["uid", "gid"]
        (OsWorld.mk "/" false (fun _ => false))).1 =
      Except.ok (Result.mk
        (updateFailures (fun _ => Except.ok "f") regProbe ["uid", "gid"] none
          (sortByPos [Entry.mk EntryType.relative "f" ["uid=1"] 0,
            Entry.mk EntryType.relative "g" ["gid=2"] 1])) [] []) :=
  update_error_not_fatal "r" (fun _ => Except.ok "f") regProbe _ _ _
    (fun _ => ⟨"f", rfl⟩) rfl

/-! ## Claim C8 -/

/-- C8 (counterexample to the claim as stated): the initial working
directory `"/home"` is determined successfully (`getwd` does not fail),
`chdir` into the root succeeds — but the deferred `chdir` back to
`"/home"` fails (its error is discarded by the deferred call), so after
`Update` returns the process is left in the root, not restored. -/
theorem update_cwd_cex :
    lostHomeWorld.getwdFails = false ∧
    ((Update "/r" (fun _ => Except.ok "") (fun _ => none) [] []
        lostHomeWorld).2).cwd ≠ lostHomeWorld.cwd := by
  exact ⟨rfl, by decide⟩

/-- C8 (amended): `Update` iterates the entries sorted by source position
(a permutation of the manifest entries ordered by `pos`), and on every
exit path — chdir failure, path-resolution error or normal return — the
working directory is restored, provided the initial working directory
could be determined and changing back into it succeeds. -/
theorem update_cwd_restored (root : String)
    (pathOf : Entry → Except String String) (reg : UReg) (entries : List Entry)
    (keywords : List String) (w : OsWorld)
    (hgw : w.getwdFails = false) (hcd : w.chdirFails w.cwd = false) :
    ((Update root pathOf reg entries keywords w).2).cwd = w.cwd ∧
    List.Sorted posLe (sortByPos entries) ∧
    List.Perm (sortByPos entries) entries := by
  refine ⟨?_, List.sorted_insertionSort posLe entries,
    List.perm_insertionSort posLe entries⟩
  by_cases hroot : w.chdirFails root
  · simp [Update, hgw, hroot, hcd]
  · cases hl : updateLoop pathOf reg keywords none [] (sortByPos entries) with
    | error err => simp [Update, hgw, hroot, hcd, hl]
    | ok fails => simp [Update, hgw, hroot, hcd, hl]

/-- C8 (witness): with a restorable initial directory the working directory
comes back to it. -/
theorem update_cwd_restored_witness :
    ((Update "/r" (fun _ => Except.ok "") (fun _ => none) [] []
        (OsWorld.mk "/home" false (fun _ => false))).2).cwd = "/home" :=
  (update_cwd_restored "/r" (fun _ => Except.ok "") (fun _ => none) [] []
    (OsWorld.mk "/home" false (fun _ => false)) rfl rfl).1


/-! ## Claim C9 -/

/-- C9: in a validation run (no version/list mode, a valid result format,
loadable manifest, no tar pipeline failure, not create or update mode),
gomtree exits `0` exactly when the check produced no failures, no extra
and no missing entries, and exits `1` when any of the three lists is
non-empty; invocation errors — an invalid result format, an unreadable
manifest, or missing arguments (neither a manifest nor a tar nor create
mode) — also exit `1`. -/
theorem gomtree_exit_codes (fl : CLIFlags) (ops : MainOps) (res : Result)
    (h1 : fl.flVersion = false) (h2 : fl.flListKeywords = false)
    (h3 : validFormat fl.flResultFormat = true)
    (h4 : isError ops.openSpec = false) (h5 : isError ops.parseSpec = false)
    (h6 : fl.flListUsedKeywords = false) (h7 : fl.flUpdateAttributes = false)
    (h8 : isError ops.openTar = false) (h9 : isError ops.tarCopy = false)
    (h10 : isError ops.tarClose = false) (h11 : isError ops.tarHierarchy = false)
    (h12 : fl.flCreate = false)
    (h13 : ((fl.flTar != "") || (fl.flFile != "")) = true)
    (hres : (if fl.flTar != "" then ops.tarCheck else ops.check) = Except.ok res) :
    (res.failures = [] ∧ res.extra = [] ∧ res.missing = [] →
      gomtreeMain fl ops = 0) ∧
    (res.failures ≠ [] ∨ res.extra ≠ [] ∨ res.missing ≠ [] →
      gomtreeMain fl ops = 1) ∧
    (∀ (fl' : CLIFlags) (ops' : MainOps), fl'.flVersion = false →
      fl'.flListKeywords = false → validFormat fl'.flResultFormat = false →
      gomtreeMain fl' ops' = 1) ∧
    (∀ (fl' : CLIFlags) (ops' : MainOps), fl'.flVersion = false →
      fl'.flListKeywords = false → validFormat fl'.flResultFormat = true →
      (fl'.flFile != "") = true → fl'.flCreate = false →
      isError ops'.openSpec = true → gomtreeMain fl' ops' = 1) ∧
    (∀ (fl' : CLIFlags) (ops' : MainOps), fl'.flVersion = false →
      fl'.flListKeywords = false → validFormat fl'.flResultFormat = true →
      fl'.flFile = "" → fl'.flTar = "" → fl'.flListUsedKeywords = false →
      fl'.flCreate = false → gomtreeMain fl' ops' = 1) := by
  have hres' : (if fl.flTar = "" then ops.check else ops.tarCheck) = Except.ok res := by
    by_cases htar : fl.flTar = "" <;> simpa [htar] using hres
  refine ⟨?_, ?_, ?_, ?_, ?_⟩
  · rintro ⟨hf, he, hm⟩
    simp [gomtreeMain, h1, h2, h3, h4, h5, h6, h7, h8, h9, h10, h11, h12, h13,
      hres', hf, he, hm]
  · intro h
    rcases h with hx | hx | hx <;>
      simp [gomtreeMain, h1, h2, h3, h4, h5, h6, h7, h8, h9, h10, h11, h12, h13,
        hres', hx]
  · intro fl' ops' g1 g2 g3
    simp [gomtreeMain, g1, g2, g3]
  · intro fl' ops' g1 g2 g3 g4 g5 g6
    simp [gomtreeMain, g1, g2, g3, g4, g5, g6]
  · intro fl' ops' g1 g2 g3 g4 g5 g6 g7
    simp [gomtreeMain, g1, g2, g3, g4, g5, g6, g7]

/-- C9 (witness): a clean validation exits `0`. -/
theorem gomtree_exit_codes_witness : gomtreeMain flagsValidation opsClean = 0 :=
  (gomtree_exit_codes flagsValidation opsClean (Result.mk [] [] []) rfl rfl rfl
    rfl rfl rfl rfl rfl rfl rfl rfl rfl (by decide) rfl).1 ⟨rfl, rfl, rfl⟩

